import Mathlib

/-!
# QuickDrop Web: the token registry and its lifecycle

A shallow embedding of `main.go`: the in-memory registry `store.Files`
(a Go `map[string]FileMetadata`), the upload directory on disk, the four
request handlers and one cycle of the reaper loop `runGC`.

Conventions of the embedding

* A Go map is a list of key/value pairs whose keys are pairwise distinct.
  The order of the list is the order in which a `range` loop visits the
  entries, so quantifying over all maps quantifies over all iteration orders.
* Times are integers (nanoseconds on the clock that `time.Now` reads),
  durations are the saturating signed 64 bit differences of `Time.Sub`.
* Values that the handlers obtain from their environment (the two UUIDs,
  the current time, whether `MkdirAll` and `SaveUploadedFile` succeed, how many
  bytes the client accepts before it hangs up, what a failed save leaves on
  disk) are explicit arguments.
* Every mutation of the registry or of the disk is also appended to an event
  log, which is what the statements about the order of effects talk about.
  Response headers and console output are not modelled.
-/

namespace QuickDrop

/-! ## Go maps with string keys -/

/-- A Go `map[string]β`: finitely many entries, no key twice. -/
structure GoMap (β : Type) where
  entries : List (String × β)
  nodup : (entries.map Prod.fst).Nodup

namespace GoMap

variable {β : Type}

/-- The list of keys, in iteration order. -/
def keys (m : GoMap β) : List String := m.entries.map Prod.fst

/-- The result of `make(map[string]β)`. -/
def empty : GoMap β := ⟨[], List.nodup_nil⟩

/-- First value stored under `k` in a raw entry list. -/
def lookupList (k : String) : List (String × β) → Option β
  | [] => none
  | (k', v) :: rest => if k' = k then some v else lookupList k rest

/-- The two-result index expression `v, ok := m[k]` as an option. -/
def lookup (m : GoMap β) (k : String) : Option β := lookupList k m.entries

/-- The number of entries, `len(m)`. -/
def size (m : GoMap β) : Nat := m.entries.length

/-- The builtin `delete(m, k)`. -/
def erase (m : GoMap β) (k : String) : GoMap β :=
  ⟨m.entries.filter (fun e => decide (e.1 ≠ k)),
    ((List.filter_sublist m.entries).map Prod.fst).nodup m.nodup⟩

/-- The assignment `m[k] = v`: a new entry, or the old one overwritten. -/
def insert (m : GoMap β) (k : String) (v : β) : GoMap β :=
  ⟨(k, v) :: m.entries.filter (fun e => decide (e.1 ≠ k)), by
    rw [List.map_cons, List.nodup_cons]
    refine ⟨?_, ((List.filter_sublist m.entries).map Prod.fst).nodup m.nodup⟩
    intro hmem
    rcases List.mem_map.1 hmem with ⟨e, he, hk⟩
    have := (List.mem_filter.1 he).2
    simp [hk] at this⟩

end GoMap

/-! ## Data model -/

/-- File contents and response bodies. -/
abbrev Bytes := List Nat

/-- Go's `FileMetadata`: where the blob is and when the entry was made. -/
structure FileMetadata where
  Path : String
  CreatedAt : Int
deriving DecidableEq

/-- A mutation of the registry or of the disk. -/
inductive Event where
  | blobSave (path : String)
  | registryInsert (token : String)
  | registryDelete (token : String)
  | blobRemove (path : String)
deriving DecidableEq

/-- The process state: `store.Files`, the files on disk, and the log of
mutations performed so far (oldest first). -/
structure State where
  Files : GoMap FileMetadata
  Disk : GoMap Bytes
  Log : List Event

/-- State at process start: `make(map[string]FileMetadata)` and no uploads. -/
def State.init : State := ⟨GoMap.empty, GoMap.empty, []⟩

/-- Body of an HTTP response. -/
inductive Body where
  | empty
  | text (msg : String)
  | json (fields : List (String × String))
  | data (bytes : Bytes)
deriving DecidableEq

/-- An HTTP response: status code and body. -/
structure Response where
  status : Nat
  body : Body
deriving DecidableEq

/-! ## Library functions used by the handlers -/

/-- Scan of `filepath.Ext`: walks the path from its last character towards the
front, stops at a separator, and returns the suffix starting at the first dot
it meets. `acc` holds the characters already passed. -/
def extScan : List Char → List Char → Option (List Char)
  | [], _ => none
  | c :: rest, acc =>
    if c = '/' then none
    else if c = '.' then some (c :: acc)
    else extScan rest (c :: acc)

/-- Go's `filepath.Ext`: the extension of the last path element, with its dot,
or the empty string. -/
def filepathExt (path : String) : String :=
  match extScan path.data.reverse [] with
  | some e => String.mk e
  | none => ""

/-- Go's `filepath.Join(dir, name)` for a non-empty `name` that `Clean` leaves
alone, as is the case for a UUID followed by an extension. -/
def filepathJoin (dir name : String) : String := dir ++ "/" ++ name

/-- The largest `time.Duration`. -/
def maxDuration : Int := 2 ^ 63 - 1

/-- The smallest `time.Duration`. -/
def minDuration : Int := -(2 ^ 63)

/-- Go's `Time.Sub`: the difference `t - u`, saturated to the range of
`time.Duration`. -/
def timeSub (t u : Int) : Int :=
  if t - u > maxDuration then maxDuration
  else if t - u < minDuration then minDuration
  else t - u

/-- The constant `time.Hour`, in nanoseconds. -/
def Hour : Int := 3600 * 1000000000

/-- The constant `Port`. -/
def Port : String := "8989"

/-- Go's `io.Copy(c.Writer, f)`. The client takes `accepts` bytes before the
connection breaks (`none`: it takes everything). Returns the bytes written and
whether the copy ended with an error. -/
def ioCopy (content : Bytes) (accepts : Option Nat) : Bytes × Bool :=
  match accepts with
  | none => (content, false)
  | some n => if n < content.length then (content.take n, true) else (content, false)

/-! ## Primitive effects -/

/-- Successful `c.SaveUploadedFile(file, savePath)`: the file at `path` now holds
`content`. -/
def saveUploadedFile (path : String) (content : Bytes) (s : State) : State :=
  ⟨s.Files, s.Disk.insert path content, s.Log ++ [Event.blobSave path]⟩

/-- A `c.SaveUploadedFile(file, savePath)` that fails in its copy, after it has
created the file: the file at `path` holds the first `written` bytes of
`content`. -/
def saveInterrupted (path : String) (content : Bytes) (written : Nat) (s : State) : State :=
  ⟨s.Files, s.Disk.insert path (content.take written), s.Log ++ [Event.blobSave path]⟩

/-- The locked assignment `store.Files[token] = meta`. -/
def registryInsert (token : String) (m : FileMetadata) (s : State) : State :=
  ⟨s.Files.insert token m, s.Disk, s.Log ++ [Event.registryInsert token]⟩

/-- The locked `delete(store.Files, token)`. -/
def registryDelete (token : String) (s : State) : State :=
  ⟨s.Files.erase token, s.Disk, s.Log ++ [Event.registryDelete token]⟩

/-- The call `os.Remove(path)`, whose error is ignored: the file is gone
afterwards, and removing a missing file changes nothing. -/
def osRemove (path : String) (s : State) : State :=
  ⟨s.Files, s.Disk.erase path, s.Log ++ [Event.blobRemove path]⟩

/-! ## The handlers -/

/-- What `handleUpload` reads from its environment, in the order it reads it:
the outcome of `os.MkdirAll`, the UUID of the file name, the error of
`c.SaveUploadedFile` if it fails, the UUID of the token, `time.Now()` and
`getLocalIP()`. A failing save has either created no file (`savePartial` is
`none`: the part could not be opened or the file not created) or has created
the file and broken off after writing `n` bytes (`savePartial` is `some n`). -/
structure UploadEnv where
  mkdirOk : Bool
  fileUuid : String
  saveErr : Option String
  savePartial : Option Nat
  tokenUuid : String
  now : Int
  ip : String

/-- The path `handleUpload` saves to: `uploads/<uuid><ext>`. -/
def savePath (env : UploadEnv) (filename : String) : String :=
  filepathJoin "uploads" (env.fileUuid ++ filepathExt filename)

/-- The handler `handleUpload`. `formFile` is the result of `c.FormFile("file")`:
the name and content of the file part, or `none` if the request has none.
When the save fails the handler answers 500 and returns; it does not touch
whatever the failed save has left at the save path. -/
def handleUpload (formFile : Option (String × Bytes)) (env : UploadEnv) (s : State) :
    Response × State :=
  match formFile with
  | none => (⟨400, Body.json [("error", "No file uploaded")]⟩, s)
  | some (filename, content) =>
    if env.mkdirOk = false then
      (⟨500, Body.json [("error", "Failed to create upload dir")]⟩, s)
    else
      match env.saveErr with
      | some err =>
        (⟨500, Body.json [("error", "Failed to save file: " ++ err)]⟩,
          match env.savePartial with
          | none => s
          | some written => saveInterrupted (savePath env filename) content written s)
      | none =>
        let s1 := saveUploadedFile (savePath env filename) content s
        let token := env.tokenUuid
        let s2 := registryInsert token ⟨savePath env filename, env.now⟩ s1
        (⟨200, Body.json [("token", token),
            ("url", "http://" ++ env.ip ++ ":" ++ Port ++ "/download/" ++ token),
            ("qr_url", "/qr/" ++ token)]⟩, s2)

/-- The answer of `handleDownload` when the token is not in the registry. -/
def notFound : Response := ⟨404, Body.text "File not found or already destroyed."⟩

/-- The answer of `handleDownload` when `os.Open` fails. -/
def missingOnDisk : Response := ⟨404, Body.text "File missing on disk."⟩

/-- Second part of `handleDownload`, after a successful lookup: open the blob
and copy it to the client. The boolean tells whether the handler went on to
start the self-destruct goroutine, which it does only if the copy ended
without error. -/
def openAndStream (m : FileMetadata) (accepts : Option Nat) (s : State) : Response × Bool :=
  match s.Disk.lookup m.Path with
  | none => (missingOnDisk, false)
  | some content =>
    match ioCopy content accepts with
    | (written, true) => (⟨200, Body.data written⟩, false)
    | (written, false) => (⟨200, Body.data written⟩, true)

/-- The goroutine started at the end of `handleDownload`: registry delete,
then `os.Remove`. -/
def selfDestruct (token : String) (m : FileMetadata) (s : State) : State :=
  osRemove m.Path (registryDelete token s)

/-- The handler `handleDownload` up to its return. It changes nothing itself;
the second component is the self-destruct goroutine it has started, if any,
given by the token and metadata the goroutine has captured. -/
def handleDownload (token : String) (accepts : Option Nat) (s : State) :
    Response × Option (String × FileMetadata) :=
  match s.Files.lookup token with
  | none => (notFound, none)
  | some m =>
    match openAndStream m accepts s with
    | (resp, true) => (resp, some (token, m))
    | (resp, false) => (resp, none)

/-- A download request run to the end: the handler, then the goroutine it
started, if it started one. -/
def download (token : String) (accepts : Option Nat) (s : State) : Response × State :=
  match handleDownload token accepts s with
  | (resp, none) => (resp, s)
  | (resp, some (tok, m)) => (resp, selfDestruct tok m s)

/-- The handler `handleStatus`. -/
def handleStatus (token : String) (s : State) : Response × State :=
  match s.Files.lookup token with
  | some _ => (⟨200, Body.empty⟩, s)
  | none => (⟨404, Body.empty⟩, s)

/-- Whether the reaper treats an entry as expired at time `now`. -/
def expired (now : Int) (m : FileMetadata) : Bool :=
  decide (timeSub now m.CreatedAt > 1 * Hour)

/-- Body of the `range` loop of `runGC` for one entry: an expired entry has
its file removed with `os.Remove` and is then deleted from the map. -/
def gcVisit (now : Int) (s : State) (e : String × FileMetadata) : State :=
  if expired now e.2 then registryDelete e.1 (osRemove e.2.Path s) else s

/-- One cycle of `runGC` after its sleep, at time `now`: the loop over the
entries of `store.Files`, under the write lock. An entry is deleted only
while it is the current one, so the loop visits exactly the entries present
at its start. -/
def runGCCycle (now : Int) (s : State) : State :=
  s.Files.entries.foldl (gcVisit now) s

/-! ## Sequences of requests -/

/-- An upload request that carries a file part, with its environment. -/
structure UploadReq where
  filename : String
  content : Bytes
  env : UploadEnv

/-- The uploads of `us` handled one after the other. -/
def uploadAll (us : List UploadReq) (s : State) : State :=
  us.foldl (fun st u => (handleUpload (some (u.filename, u.content)) u.env st).2) s

/-- How far a download request has got. -/
inductive Phase where
  | start
  | looked (m : FileMetadata)
  | spawned (resp : Response) (m : FileMetadata)
  | unregistered (resp : Response) (m : FileMetadata)
  | done (resp : Response)
deriving DecidableEq

/-- A download request in flight: how many bytes its client will accept, and
its phase. -/
structure Request where
  accepts : Option Nat
  phase : Phase
deriving DecidableEq

/-- The next atomic step of a download request for `token`, in program order:
the read-locked lookup; opening and streaming the blob; then, in the
self-destruct goroutine, the locked registry delete; then `os.Remove`. -/
def stepRequest (token : String) (r : Request) (s : State) : Request × State :=
  match r.phase with
  | Phase.start =>
    match s.Files.lookup token with
    | none => (⟨r.accepts, Phase.done notFound⟩, s)
    | some m => (⟨r.accepts, Phase.looked m⟩, s)
  | Phase.looked m =>
    match openAndStream m r.accepts s with
    | (resp, true) => (⟨r.accepts, Phase.spawned resp m⟩, s)
    | (resp, false) => (⟨r.accepts, Phase.done resp⟩, s)
  | Phase.spawned resp m => (⟨r.accepts, Phase.unregistered resp m⟩, registryDelete token s)
  | Phase.unregistered resp m => (⟨r.accepts, Phase.done resp⟩, osRemove m.Path s)
  | Phase.done _ => (r, s)

/-- The shared state together with the download requests in flight, all for
the same token. -/
structure Sys where
  state : State
  reqs : List Request

/-- Request number `i` takes its next step. -/
def stepSys (token : String) (i : Nat) (c : Sys) : Sys :=
  match c.reqs[i]? with
  | none => c
  | some r => ⟨(stepRequest token r c.state).2, c.reqs.set i (stepRequest token r c.state).1⟩

/-- An interleaving: the requests named by the schedule step one after the
other. -/
def runSys (token : String) (sched : List Nat) (c : Sys) : Sys :=
  sched.foldl (fun st i => stepSys token i st) c

/-! ## Example inputs -/

/-- Environment of the example upload: everything succeeds, the file UUID is
`f1` and the token UUID is `t1`, at time 100. -/
def exEnv : UploadEnv := ⟨true, "f1", none, none, "t1", 100, "10.0.0.1"⟩

/-- The state after uploading the three bytes 1, 2, 3 as `a.txt` into the
empty store. -/
def exState : State := (handleUpload (some ("a.txt", [1, 2, 3])) exEnv State.init).2

namespace GoMap

variable {β : Type}

theorem lookupList_filter_ne (k k' : String) (l : List (String × β)) :
    lookupList k (l.filter (fun e => decide (e.1 ≠ k'))) =
      if k = k' then none else lookupList k l := by
  induction l with
  | nil => simp [lookupList]
  | cons e rest ih =>
    obtain ⟨a, v⟩ := e
    by_cases ha : a = k'
    · subst ha
      by_cases hk : k = a
      · subst hk
        simpa [List.filter, lookupList] using ih
      · have hk2 : ¬ a = k := fun h => hk h.symm
        simpa [List.filter, lookupList, hk, hk2] using ih
    · by_cases hak : a = k
      · subst hak
        simp [List.filter, lookupList, ha]
      · simpa [List.filter, lookupList, ha, hak] using ih

theorem lookup_erase (m : GoMap β) (k k' : String) :
    (m.erase k').lookup k = if k = k' then none else m.lookup k := by
  simp only [lookup, erase]
  exact lookupList_filter_ne k k' m.entries

theorem lookup_insert (m : GoMap β) (k k' : String) (v : β) :
    (m.insert k' v).lookup k = if k = k' then some v else m.lookup k := by
  simp only [lookup, insert, lookupList]
  by_cases h : k = k'
  · subst h
    simp
  · have h2 : ¬ k' = k := fun e => h e.symm
    rw [if_neg h2, lookupList_filter_ne, if_neg h, if_neg h]

theorem lookupList_eq_none_iff (k : String) (l : List (String × β)) :
    lookupList k l = none ↔ k ∉ l.map Prod.fst := by
  induction l with
  | nil => simp [lookupList]
  | cons e rest ih =>
    obtain ⟨a, v⟩ := e
    by_cases ha : a = k
    · simp [lookupList, ha]
    · have ha2 : ¬ k = a := fun h => ha h.symm
      simp only [lookupList, if_neg ha, ih, List.map_cons, List.mem_cons, not_or]
      exact ⟨fun h => ⟨ha2, h⟩, fun h => h.2⟩

theorem lookup_eq_none_iff (m : GoMap β) (k : String) :
    m.lookup k = none ↔ k ∉ m.keys :=
  lookupList_eq_none_iff k m.entries

theorem mem_keys_iff (m : GoMap β) (k : String) :
    k ∈ m.keys ↔ ∃ v, m.lookup k = some v := by
  constructor
  · intro h
    cases hl : m.lookup k with
    | none => exact absurd h ((lookup_eq_none_iff m k).1 hl)
    | some v => exact ⟨v, rfl⟩
  · rintro ⟨v, hv⟩
    by_contra hk
    rw [(lookup_eq_none_iff m k).2 hk] at hv
    cases hv

end GoMap

/-! ## Status -/

/-- C7: `handleStatus` answers 200 exactly when the token is a key of
`store.Files` and 404 exactly when it is not, and it returns the state it was
given: registry, disk and log are untouched. -/
theorem handleStatus_pure (s : State) (t : String) :
    ((handleStatus t s).1.status = 200 ↔ t ∈ s.Files.keys) ∧
    ((handleStatus t s).1.status = 404 ↔ t ∉ s.Files.keys) ∧
    (handleStatus t s).2 = s := by
  unfold handleStatus
  cases h : s.Files.lookup t with
  | none =>
    have hk : t ∉ s.Files.keys := (GoMap.lookup_eq_none_iff _ _).1 h
    simp [hk]
  | some m =>
    have hk : t ∈ s.Files.keys := (GoMap.mem_keys_iff _ _).2 ⟨m, h⟩
    simp [hk]

/-! ## Download -/

theorem ioCopy_complete (content : Bytes) (accepts : Option Nat)
    (h : (ioCopy content accepts).2 = false) : ioCopy content accepts = (content, false) := by
  unfold ioCopy at h ⊢
  cases accepts with
  | none => rfl
  | some n =>
    by_cases hn : n < content.length
    · simp [hn] at h
    · simp [hn]

theorem handleDownload_absent (s : State) (t : String) (a : Option Nat)
    (h : s.Files.lookup t = none) : handleDownload t a s = (notFound, none) := by
  simp [handleDownload, h]

theorem selfDestruct_lookup (s : State) (t k : String) (m : FileMetadata) :
    (selfDestruct t m s).Files.lookup k = if k = t then none else s.Files.lookup k := by
  simp [selfDestruct, osRemove, registryDelete, GoMap.lookup_erase]

/-- C1: if the token is registered and its blob opens, a download whose copy
runs to completion answers 200 with the whole content and starts the
self-destruct goroutine; once that has run the token is no longer a key of
`store.Files`, `handleStatus` answers 404, and any further download of the token
answers 404 with a text body, streams nothing and starts no goroutine. -/
theorem download_single_use (s : State) (t : String) (m : FileMetadata) (content : Bytes)
    (accepts : Option Nat)
    (hreg : s.Files.lookup t = some m) (hblob : s.Disk.lookup m.Path = some content)
    (hcopy : (ioCopy content accepts).2 = false) :
    handleDownload t accepts s = (⟨200, Body.data content⟩, some (t, m)) ∧
    download t accepts s = (⟨200, Body.data content⟩, selfDestruct t m s) ∧
    t ∉ (selfDestruct t m s).Files.keys ∧
    handleStatus t (selfDestruct t m s) = (⟨404, Body.empty⟩, selfDestruct t m s) ∧
    ∀ a, handleDownload t a (selfDestruct t m s) = (notFound, none) ∧
      download t a (selfDestruct t m s) = (notFound, selfDestruct t m s) := by
  have hgone : (selfDestruct t m s).Files.lookup t = none := by
    simp [selfDestruct_lookup]
  have hd : handleDownload t accepts s = (⟨200, Body.data content⟩, some (t, m)) := by
    simp [handleDownload, openAndStream, hreg, hblob, ioCopy_complete content accepts hcopy]
  refine ⟨hd, ?_, (GoMap.lookup_eq_none_iff _ _).1 hgone, ?_, ?_⟩
  · simp [download, hd]
  · simp [handleStatus, hgone]
  · intro a
    have := handleDownload_absent _ t a hgone
    exact ⟨this, by simp [download, this]⟩

theorem download_single_use_witness :
    handleDownload "t1" none exState =
        (⟨200, Body.data [1, 2, 3]⟩, some ("t1", ⟨"uploads/f1.txt", 100⟩)) ∧
      handleStatus "t1" (selfDestruct "t1" ⟨"uploads/f1.txt", 100⟩ exState) =
        (⟨404, Body.empty⟩, selfDestruct "t1" ⟨"uploads/f1.txt", 100⟩ exState) :=
  have h := download_single_use exState "t1" ⟨"uploads/f1.txt", 100⟩ [1, 2, 3] none
    (by decide) (by decide) (by decide)
  ⟨h.1, h.2.2.2.1⟩

/-- C4 as stated fails: in the example state a download of `t1` whose client
hangs up after two of the three bytes starts no self-destruct goroutine, and
when the request is over the token is still registered and the blob is still
on disk. -/
theorem download_abort_keeps_token :
    handleDownload "t1" (some 2) exState = (⟨200, Body.data [1, 2]⟩, none) ∧
      (download "t1" (some 2) exState).2.Files.lookup "t1" = some ⟨"uploads/f1.txt", 100⟩ ∧
      (download "t1" (some 2) exState).2.Disk.lookup "uploads/f1.txt" = some [1, 2, 3] := by
  decide

/-- C4, amended: if the token is registered and its blob opens, a download
whose copy breaks off after `n` bytes, `n` less than the length of the blob,
answers with those `n` bytes, starts no self-destruct goroutine and leaves the
state as it was: the token stays in `store.Files` and the blob stays on disk. -/
theorem download_abort_no_cleanup (s : State) (t : String) (m : FileMetadata) (content : Bytes)
    (n : Nat) (hreg : s.Files.lookup t = some m) (hblob : s.Disk.lookup m.Path = some content)
    (hn : n < content.length) :
    handleDownload t (some n) s = (⟨200, Body.data (content.take n)⟩, none) ∧
    download t (some n) s = (⟨200, Body.data (content.take n)⟩, s) := by
  have hd : handleDownload t (some n) s = (⟨200, Body.data (content.take n)⟩, none) := by
    simp [handleDownload, openAndStream, hreg, hblob, ioCopy, hn]
  exact ⟨hd, by simp [download, hd]⟩

theorem download_abort_no_cleanup_witness :
    download "t1" (some 2) exState = (⟨200, Body.data [1, 2]⟩, exState) :=
  (download_abort_no_cleanup exState "t1" ⟨"uploads/f1.txt", 100⟩ [1, 2, 3] 2
    (by decide) (by decide) (by decide)).2

/-! ## Upload -/

theorem handleUpload_ok (s : State) (filename : String) (content : Bytes) (env : UploadEnv)
    (hmk : env.mkdirOk = true) (hsave : env.saveErr = none) :
    handleUpload (some (filename, content)) env s =
      (⟨200, Body.json [("token", env.tokenUuid),
          ("url", "http://" ++ env.ip ++ ":" ++ Port ++ "/download/" ++ env.tokenUuid),
          ("qr_url", "/qr/" ++ env.tokenUuid)]⟩,
        registryInsert env.tokenUuid ⟨savePath env filename, env.now⟩
          (saveUploadedFile (savePath env filename) content s)) := by
  simp [handleUpload, hmk, hsave]

theorem upload_files_lookup (s : State) (path : String) (content : Bytes) (t k : String)
    (m : FileMetadata) :
    (registryInsert t m (saveUploadedFile path content s)).Files.lookup k =
      if k = t then some m else s.Files.lookup k := by
  simp [registryInsert, saveUploadedFile, GoMap.lookup_insert]

theorem upload_disk_lookup (s : State) (path : String) (content : Bytes) (t p : String)
    (m : FileMetadata) :
    (registryInsert t m (saveUploadedFile path content s)).Disk.lookup p =
      if p = path then some content else s.Disk.lookup p := by
  simp [registryInsert, saveUploadedFile, GoMap.lookup_insert]

/-- C2: if an upload of content `C` succeeds, it answers 200 with its token,
the registry maps the token to the path the content was saved to, that path
holds `C` on disk, and a download of the token in the resulting state whose
copy runs to completion answers 200 with exactly `C`. -/
theorem upload_download_roundtrip (s : State) (filename : String) (C : Bytes) (env : UploadEnv)
    (accepts : Option Nat) (hmk : env.mkdirOk = true) (hsave : env.saveErr = none)
    (hcopy : (ioCopy C accepts).2 = false) :
    (handleUpload (some (filename, C)) env s).1 =
      ⟨200, Body.json [("token", env.tokenUuid),
          ("url", "http://" ++ env.ip ++ ":" ++ Port ++ "/download/" ++ env.tokenUuid),
          ("qr_url", "/qr/" ++ env.tokenUuid)]⟩ ∧
    (handleUpload (some (filename, C)) env s).2.Files.lookup env.tokenUuid =
      some ⟨savePath env filename, env.now⟩ ∧
    (handleUpload (some (filename, C)) env s).2.Disk.lookup (savePath env filename) = some C ∧
    (handleDownload env.tokenUuid accepts (handleUpload (some (filename, C)) env s).2).1 =
      ⟨200, Body.data C⟩ := by
  rw [handleUpload_ok s filename C env hmk hsave]
  have hf := upload_files_lookup s (savePath env filename) C env.tokenUuid env.tokenUuid
    ⟨savePath env filename, env.now⟩
  have hd := upload_disk_lookup s (savePath env filename) C env.tokenUuid (savePath env filename)
    ⟨savePath env filename, env.now⟩
  simp only [if_true] at hf hd
  refine ⟨rfl, hf, hd, ?_⟩
  simp only [handleDownload, hf, openAndStream, hd, ioCopy_complete C accepts hcopy]

theorem upload_download_roundtrip_witness :
    (handleDownload "t1" none (handleUpload (some ("a.txt", [1, 2, 3])) exEnv State.init).2).1 =
      ⟨200, Body.data [1, 2, 3]⟩ :=
  (upload_download_roundtrip State.init "a.txt" [1, 2, 3] exEnv none rfl rfl rfl).2.2.2

/-- C6 as stated fails: uploading a file part of zero bytes into the empty
store, with directory creation and save succeeding, answers 200, issues the
token `t1` and registers it for a blob of zero bytes. -/
theorem upload_empty_file_accepted :
    (handleUpload (some ("empty.bin", [])) exEnv State.init).1 =
        ⟨200, Body.json [("token", "t1"), ("url", "http://10.0.0.1:8989/download/t1"),
          ("qr_url", "/qr/t1")]⟩ ∧
      (handleUpload (some ("empty.bin", [])) exEnv State.init).2.Files.lookup "t1" =
        some ⟨"uploads/f1.bin", 100⟩ ∧
      (handleUpload (some ("empty.bin", [])) exEnv State.init).2.Disk.lookup "uploads/f1.bin" =
        some [] := by
  decide

/-- C6, amended: a file part of zero bytes is uploaded like any other. When
directory creation and save succeed the handler answers 200, the token is a
key of `store.Files` mapped to the save path, and that path holds the empty
content. -/
theorem handleUpload_empty_file (s : State) (filename : String) (env : UploadEnv)
    (hmk : env.mkdirOk = true) (hsave : env.saveErr = none) :
    (handleUpload (some (filename, [])) env s).1.status = 200 ∧
    (handleUpload (some (filename, [])) env s).2.Files.lookup env.tokenUuid =
      some ⟨savePath env filename, env.now⟩ ∧
    (handleUpload (some (filename, [])) env s).2.Disk.lookup (savePath env filename) =
      some [] := by
  rw [handleUpload_ok s filename [] env hmk hsave]
  refine ⟨rfl, ?_, ?_⟩
  · rw [upload_files_lookup, if_pos rfl]
  · rw [upload_disk_lookup, if_pos rfl]

theorem handleUpload_empty_file_witness :
    (handleUpload (some ("empty.bin", [])) exEnv State.init).1.status = 200 :=
  (handleUpload_empty_file State.init "empty.bin" exEnv rfl rfl).1

theorem GoMap.size_insert_fresh {β : Type} (m : GoMap β) (k : String) (v : β)
    (hk : k ∉ m.keys) : (m.insert k v).size = m.size + 1 := by
  have hfilter : m.entries.filter (fun e => decide (e.1 ≠ k)) = m.entries := by
    apply List.filter_eq_self.2
    intro e he
    have : e.1 ≠ k := fun h => hk (h ▸ List.mem_map_of_mem Prod.fst he)
    simpa using this
  show ((k, v) :: m.entries.filter (fun e => decide (e.1 ≠ k))).length = m.entries.length + 1
  rw [hfilter, List.length_cons]

theorem uploadAll_cons (u : UploadReq) (us : List UploadReq) (s : State) :
    uploadAll (u :: us) s =
      uploadAll us (handleUpload (some (u.filename, u.content)) u.env s).2 := rfl

/-- C8: let `us` be uploads that all succeed, whose tokens are pairwise
distinct and none of which is a key of `store.Files` beforehand. After handling
them one after the other the registry has exactly `us.length` more entries,
every upload's token is mapped to its own save path and creation time and
`handleStatus` answers 200 for it, and every other key has the entry it had
before (or still none). A single upload is the case of a one-element list. -/
theorem uploads_extend_registry (s : State) (us : List UploadReq)
    (hok : ∀ u ∈ us, u.env.mkdirOk = true ∧ u.env.saveErr = none)
    (hdistinct : (us.map (fun u => u.env.tokenUuid)).Nodup)
    (hfresh : ∀ u ∈ us, u.env.tokenUuid ∉ s.Files.keys) :
    (uploadAll us s).Files.size = s.Files.size + us.length ∧
    (∀ u ∈ us, (uploadAll us s).Files.lookup u.env.tokenUuid =
        some ⟨savePath u.env u.filename, u.env.now⟩ ∧
      (handleStatus u.env.tokenUuid (uploadAll us s)).1.status = 200) ∧
    (∀ k, k ∉ us.map (fun u => u.env.tokenUuid) →
      (uploadAll us s).Files.lookup k = s.Files.lookup k) := by
  suffices hmain : (uploadAll us s).Files.size = s.Files.size + us.length ∧
      (∀ u ∈ us, (uploadAll us s).Files.lookup u.env.tokenUuid =
        some ⟨savePath u.env u.filename, u.env.now⟩) ∧
      (∀ k, k ∉ us.map (fun u => u.env.tokenUuid) →
        (uploadAll us s).Files.lookup k = s.Files.lookup k) by
    refine ⟨hmain.1, fun u hu => ⟨hmain.2.1 u hu, ?_⟩, hmain.2.2⟩
    simp [handleStatus, hmain.2.1 u hu]
  induction us generalizing s with
  | nil => simp [uploadAll]
  | cons u rest ih =>
    have hu := hok u (List.mem_cons_self _ _)
    have hstep := handleUpload_ok s u.filename u.content u.env hu.1 hu.2
    rw [List.map_cons, List.nodup_cons] at hdistinct
    have hlook : ∀ k, (handleUpload (some (u.filename, u.content)) u.env s).2.Files.lookup k =
        if k = u.env.tokenUuid then some ⟨savePath u.env u.filename, u.env.now⟩
        else s.Files.lookup k := by
      intro k
      rw [hstep]
      exact upload_files_lookup _ _ _ _ _ _
    have hsize : (handleUpload (some (u.filename, u.content)) u.env s).2.Files.size =
        s.Files.size + 1 := by
      rw [hstep]
      exact GoMap.size_insert_fresh _ _ _ (hfresh u (List.mem_cons_self _ _))
    have hfresh2 : ∀ w ∈ rest, w.env.tokenUuid ∉
        (handleUpload (some (u.filename, u.content)) u.env s).2.Files.keys := by
      intro w hw
      rw [← GoMap.lookup_eq_none_iff, hlook]
      have hne : w.env.tokenUuid ≠ u.env.tokenUuid := by
        intro h
        exact hdistinct.1 (h ▸ List.mem_map_of_mem (fun u => u.env.tokenUuid) hw)
      rw [if_neg hne]
      exact (GoMap.lookup_eq_none_iff _ _).2 (hfresh w (List.mem_cons_of_mem _ hw))
    obtain ⟨ih1, ih2, ih3⟩ := ih (handleUpload (some (u.filename, u.content)) u.env s).2
      (fun w hw => hok w (List.mem_cons_of_mem _ hw)) hdistinct.2 hfresh2
    rw [uploadAll_cons]
    refine ⟨?_, ?_, ?_⟩
    · rw [ih1, hsize, List.length_cons]
      omega
    · intro w hw
      rcases List.mem_cons.1 hw with h | h
      · subst h
        rw [ih3 _ hdistinct.1, hlook, if_pos rfl]
      · exact ih2 w h
    · intro k hk
      rw [List.map_cons, List.mem_cons, not_or] at hk
      rw [ih3 k hk.2, hlook, if_neg hk.1]

theorem uploads_extend_registry_witness :
    (uploadAll [⟨"a.txt", [1, 2, 3], exEnv⟩, ⟨"b", [], ⟨true, "f2", none, none, "t2", 250, "10.0.0.1"⟩⟩]
      State.init).Files.size = State.init.Files.size + 2 :=
  (uploads_extend_registry State.init
    [⟨"a.txt", [1, 2, 3], exEnv⟩, ⟨"b", [], ⟨true, "f2", none, none, "t2", 250, "10.0.0.1"⟩⟩]
    (by decide) (by decide) (by decide)).1

/-! ## The reaper -/

theorem expired_iff (now : Int) (m : FileMetadata) :
    expired now m = true ↔ m.CreatedAt + Hour < now := by
  have h63 : (2 : Int) ^ 63 = 9223372036854775808 := by norm_num
  unfold expired timeSub maxDuration minDuration Hour
  rw [decide_eq_true_iff, h63]
  split_ifs <;> omega

theorem GoMap.lookupList_eq_some_iff {β : Type} (k : String) (v : β) (l : List (String × β))
    (h : (l.map Prod.fst).Nodup) : GoMap.lookupList k l = some v ↔ (k, v) ∈ l := by
  induction l with
  | nil => simp [GoMap.lookupList]
  | cons e rest ih =>
    obtain ⟨a, w⟩ := e
    rw [List.map_cons, List.nodup_cons] at h
    by_cases ha : a = k
    · subst ha
      have hnot : ∀ x, (a, x) ∉ rest := fun x hx =>
        h.1 (List.mem_map.2 ⟨(a, x), hx, rfl⟩)
      simp only [GoMap.lookupList, if_true, List.mem_cons, Prod.mk.injEq, true_and,
        Option.some.injEq]
      constructor
      · intro hw
        exact Or.inl hw.symm
      · rintro (hw | hw)
        · exact hw.symm
        · exact absurd hw (hnot v)
    · have ha2 : ¬ k = a := fun e => ha e.symm
      simp only [GoMap.lookupList, if_neg ha, ih h.2, List.mem_cons, Prod.mk.injEq, ha2,
        false_and, false_or]

theorem GoMap.lookup_eq_some_iff {β : Type} (m : GoMap β) (k : String) (v : β) :
    m.lookup k = some v ↔ (k, v) ∈ m.entries :=
  GoMap.lookupList_eq_some_iff k v m.entries m.nodup

theorem gcVisit_files_lookup (now : Int) (s : State) (e : String × FileMetadata) (t : String) :
    (gcVisit now s e).Files.lookup t =
      if expired now e.2 = true ∧ t = e.1 then none else s.Files.lookup t := by
  unfold gcVisit
  by_cases hx : expired now e.2 = true
  · simp [hx, registryDelete, osRemove, GoMap.lookup_erase]
  · simp [hx]

theorem gcFold_files_lookup (now : Int) (l : List (String × FileMetadata)) (s : State)
    (t : String) :
    (l.foldl (gcVisit now) s).Files.lookup t =
      if ∃ e ∈ l, expired now e.2 = true ∧ t = e.1 then none else s.Files.lookup t := by
  induction l generalizing s with
  | nil => simp
  | cons e rest ih =>
    rw [List.foldl_cons, ih, gcVisit_files_lookup]
    by_cases h1 : ∃ x ∈ rest, expired now x.2 = true ∧ t = x.1
    · have h2 : ∃ x ∈ e :: rest, expired now x.2 = true ∧ t = x.1 := by
        obtain ⟨x, hx, hp⟩ := h1
        exact ⟨x, List.mem_cons_of_mem _ hx, hp⟩
      rw [if_pos h1, if_pos h2]
    · rw [if_neg h1]
      by_cases h3 : expired now e.2 = true ∧ t = e.1
      · rw [if_pos h3, if_pos ⟨e, List.mem_cons_self _ _, h3⟩]
      · have h4 : ¬ ∃ x ∈ e :: rest, expired now x.2 = true ∧ t = x.1 := by
          rintro ⟨x, hx, hp⟩
          rcases List.mem_cons.1 hx with hxe | hxr
          · exact h3 (hxe ▸ hp)
          · exact h1 ⟨x, hxr, hp⟩
        rw [if_neg h3, if_neg h4]

theorem runGCCycle_files_lookup (now : Int) (s : State) (t : String) :
    (runGCCycle now s).Files.lookup t =
      (s.Files.lookup t).filter (fun m => !expired now m) := by
  unfold runGCCycle
  rw [gcFold_files_lookup]
  cases hl : s.Files.lookup t with
  | none =>
    have hno : ¬ ∃ e ∈ s.Files.entries, expired now e.2 = true ∧ t = e.1 := by
      rintro ⟨e, he, -, ht⟩
      have hk : t ∈ s.Files.keys := ht ▸ List.mem_map_of_mem Prod.fst he
      exact (GoMap.lookup_eq_none_iff _ _).1 hl hk
    simp [hno]
  | some m =>
    have hmem : (t, m) ∈ s.Files.entries := (GoMap.lookup_eq_some_iff _ _ _).1 hl
    by_cases hx : expired now m = true
    · have hyes : ∃ e ∈ s.Files.entries, expired now e.2 = true ∧ t = e.1 :=
        ⟨(t, m), hmem, hx, rfl⟩
      simp [hyes, Option.filter, hx]
    · have hno : ¬ ∃ e ∈ s.Files.entries, expired now e.2 = true ∧ t = e.1 := by
        rintro ⟨e, he, hexp, ht⟩
        have he2 : s.Files.lookup t = some e.2 :=
          (GoMap.lookup_eq_some_iff _ _ _).2 (by rw [ht]; exact he)
        rw [hl] at he2
        cases he2
        exact hx hexp
      simp [hno, Option.filter, hx]

/-- C5: one cycle of `runGC` at time `now` keeps an entry, with its path and
creation time unchanged, exactly when `now` is no later than its creation time
plus one hour, removes it otherwise, and creates no entry: the lookup of any
token afterwards is the lookup before, filtered by `now ≤ CreatedAt + Hour`.
An age of exactly one hour is kept. -/
theorem runGC_removes_exactly_expired (now : Int) (s : State) (t : String) :
    (runGCCycle now s).Files.lookup t =
      (s.Files.lookup t).filter (fun m => decide (now ≤ m.CreatedAt + Hour)) := by
  rw [runGCCycle_files_lookup]
  congr 1
  funext m
  by_cases h : m.CreatedAt + Hour < now
  · have hx := (expired_iff now m).2 h
    have h2 : ¬ now ≤ m.CreatedAt + Hour := by omega
    simp [hx, h2]
  · have hx : ¬ expired now m = true := fun hx => h ((expired_iff now m).1 hx)
    have h2 : now ≤ m.CreatedAt + Hour := by omega
    simp [hx, h2]

theorem gcFold_log (now : Int) (l : List (String × FileMetadata)) (s : State) :
    (l.foldl (gcVisit now) s).Log =
      s.Log ++ (l.filter (fun e => expired now e.2)).flatMap
        (fun e => [Event.blobRemove e.2.Path, Event.registryDelete e.1]) := by
  induction l generalizing s with
  | nil => simp [List.flatMap]
  | cons e rest ih =>
    rw [List.foldl_cons, ih]
    by_cases hx : expired now e.2 = true
    · simp [gcVisit, hx, registryDelete, osRemove, List.flatMap]
    · simp [gcVisit, hx]

/-- C10, at the failing input: in the example state, a reaper cycle one
nanosecond past the hour removes the blob first and deletes the token from the
registry second, whereas the self-destruct of a download on the same state
deletes the token first and removes the blob second. The reaper does not
follow the order of the self-destruct path. -/
theorem runGC_order_example :
    expired 3600000000101 ⟨"uploads/f1.txt", 100⟩ = true ∧
      (runGCCycle 3600000000101 exState).Log =
        [Event.blobSave "uploads/f1.txt", Event.registryInsert "t1",
          Event.blobRemove "uploads/f1.txt", Event.registryDelete "t1"] ∧
      (runGCCycle 3600000000101 exState).Log.indexOf (Event.blobRemove "uploads/f1.txt") <
        (runGCCycle 3600000000101 exState).Log.indexOf (Event.registryDelete "t1") ∧
      (selfDestruct "t1" ⟨"uploads/f1.txt", 100⟩ exState).Log =
        [Event.blobSave "uploads/f1.txt", Event.registryInsert "t1",
          Event.registryDelete "t1", Event.blobRemove "uploads/f1.txt"] := by
  decide

/-- The effects of the two cleanup paths in general: a reaper cycle appends
to the log, for every expired entry in the order the loop visits them, the
removal of its blob immediately followed by the registry delete of its token,
and nothing else; the self-destruct of a download appends the registry delete
of the token followed by the removal of the blob. -/
theorem runGC_blob_then_registry (now : Int) (s : State) (t : String) (m : FileMetadata) :
    (runGCCycle now s).Log =
        s.Log ++ (s.Files.entries.filter (fun e => expired now e.2)).flatMap
          (fun e => [Event.blobRemove e.2.Path, Event.registryDelete e.1]) ∧
      (selfDestruct t m s).Log = s.Log ++ [Event.registryDelete t, Event.blobRemove m.Path] := by
  refine ⟨gcFold_log now s.Files.entries s, ?_⟩
  simp [selfDestruct, osRemove, registryDelete]

/-! ## Registry and disk stay in step -/

theorem stepRequest_sequential (t : String) (a : Option Nat) (s : State) :
    runSys t [0, 0, 0, 0] ⟨s, [⟨a, Phase.start⟩]⟩ =
      ⟨(download t a s).2, [⟨a, Phase.done (download t a s).1⟩]⟩ := by
  unfold download handleDownload
  cases hl : s.Files.lookup t with
  | none => simp [runSys, stepSys, stepRequest, hl]
  | some m =>
    rcases hos : openAndStream m a s with ⟨resp, b⟩
    cases b with
    | false => simp [runSys, stepSys, stepRequest, hl, hos]
    | true => simp [runSys, stepSys, stepRequest, hl, hos, selfDestruct]

theorem stepRequest_files_lookup_none (t : String) (r : Request) (s : State)
    (h : s.Files.lookup t = none) : (stepRequest t r s).2.Files.lookup t = none := by
  unfold stepRequest
  cases hph : r.phase with
  | start => simp [h]
  | looked m =>
    rcases hos : openAndStream m r.accepts s with ⟨resp, b⟩
    cases b <;> simp [h, hos]
  | spawned resp m => simp [registryDelete, GoMap.lookup_erase]
  | unregistered resp m => simpa [osRemove] using h
  | done resp => simpa using h

theorem stepSys_files_lookup_none (t : String) (k : Nat) (c : Sys)
    (habs : c.state.Files.lookup t = none) : (stepSys t k c).state.Files.lookup t = none := by
  unfold stepSys
  cases hk : c.reqs[k]? with
  | none => exact habs
  | some r => exact stepRequest_files_lookup_none t r c.state habs

theorem stepSys_start_after_removal (t : String) (k i : Nat) (a : Option Nat) (c : Sys)
    (habs : c.state.Files.lookup t = none) (hi : c.reqs[i]? = some ⟨a, Phase.start⟩) :
    (stepSys t k c).reqs[i]? =
      some ⟨a, if k = i then Phase.done notFound else Phase.start⟩ := by
  unfold stepSys
  by_cases hki : k = i
  · subst hki
    have hlen : k < c.reqs.length := (List.getElem?_eq_some_iff.1 hi).1
    rw [hi]
    show (c.reqs.set k (stepRequest t ⟨a, Phase.start⟩ c.state).1)[k]? = _
    rw [List.getElem?_set_self hlen, if_pos rfl]
    simp [stepRequest, habs]
  · rw [if_neg hki]
    cases hk : c.reqs[k]? with
    | none => exact hi
    | some r =>
      show (c.reqs.set k (stepRequest t r c.state).1)[i]? = _
      rw [List.getElem?_set_ne hki]
      exact hi

theorem stepSys_notFound_stays (t : String) (k i : Nat) (a : Option Nat) (c : Sys)
    (hi : c.reqs[i]? = some ⟨a, Phase.done notFound⟩) :
    (stepSys t k c).reqs[i]? = some ⟨a, Phase.done notFound⟩ := by
  unfold stepSys
  by_cases hki : k = i
  · subst hki
    have hlen : k < c.reqs.length := (List.getElem?_eq_some_iff.1 hi).1
    rw [hi]
    show (c.reqs.set k (stepRequest t ⟨a, Phase.done notFound⟩ c.state).1)[k]? = _
    rw [List.getElem?_set_self hlen]
    simp [stepRequest]
  · cases hk : c.reqs[k]? with
    | none => exact hi
    | some r =>
      show (c.reqs.set k (stepRequest t r c.state).1)[i]? = _
      rw [List.getElem?_set_ne hki]
      exact hi

theorem runSys_notFound_stays (t : String) (sched : List Nat) (i : Nat) (a : Option Nat)
    (c : Sys) (hi : c.reqs[i]? = some ⟨a, Phase.done notFound⟩) :
    (runSys t sched c).reqs[i]? = some ⟨a, Phase.done notFound⟩ := by
  induction sched generalizing c with
  | nil => exact hi
  | cons k rest ih => exact ih (stepSys t k c) (stepSys_notFound_stays t k i a c hi)

theorem runSys_cons (t : String) (k : Nat) (sched : List Nat) (c : Sys) :
    runSys t (k :: sched) c = runSys t sched (stepSys t k c) := rfl

theorem runSys_start_after_removal (t : String) (sched : List Nat) (i : Nat) (a : Option Nat)
    (c : Sys) (habs : c.state.Files.lookup t = none)
    (hi : c.reqs[i]? = some ⟨a, Phase.start⟩) :
    (runSys t sched c).reqs[i]? =
      some ⟨a, if i ∈ sched then Phase.done notFound else Phase.start⟩ := by
  induction sched generalizing c with
  | nil => simpa [runSys] using hi
  | cons k rest ih =>
    rw [runSys_cons]
    have hstep := stepSys_start_after_removal t k i a c habs hi
    by_cases hki : k = i
    · rw [if_pos hki] at hstep
      rw [runSys_notFound_stays t rest i a _ hstep, if_pos (hki ▸ List.mem_cons_self _ _)]
    · rw [if_neg hki] at hstep
      rw [ih (stepSys t k c) (stepSys_files_lookup_none t k c habs) hstep]
      have hmem : i ∈ k :: rest ↔ i ∈ rest := by
        rw [List.mem_cons]
        exact ⟨fun h => h.resolve_left (fun e => hki e.symm), Or.inr⟩
      by_cases hr : i ∈ rest
      · rw [if_pos hr, if_pos (hmem.2 hr)]
      · rw [if_neg hr, if_neg (fun h => hr (hmem.1 h))]

/-- C3 as stated fails: two requests for `t1` in the example state, scheduled
so that both look the token up before either self-destruct runs, both answer
200 with all three bytes. -/
theorem two_downloads_both_stream :
    (runSys "t1" [0, 1, 0, 1, 0, 0, 1, 1]
        ⟨exState, [⟨none, Phase.start⟩, ⟨none, Phase.start⟩]⟩).reqs =
      [⟨none, Phase.done ⟨200, Body.data [1, 2, 3]⟩⟩,
        ⟨none, Phase.done ⟨200, Body.data [1, 2, 3]⟩⟩] := by
  decide

/-- C3, amended: in any interleaving of download requests for a token, once a
request `j` has taken the registry-delete step of its self-destruct, every
request `i` that had not yet done its lookup and takes a step in the rest of
the schedule finishes with the 404 answer for an unknown token, without
opening or streaming the blob; one that takes no step stays before its
lookup. -/
theorem lookup_after_removal_notFound (t : String) (c : Sys) (sched : List Nat) (i j : Nat)
    (ai aj : Option Nat) (resp : Response) (m : FileMetadata)
    (hj : c.reqs[j]? = some ⟨aj, Phase.spawned resp m⟩)
    (hi : c.reqs[i]? = some ⟨ai, Phase.start⟩) :
    (runSys t (j :: sched) c).reqs[i]? =
      some ⟨ai, if i ∈ sched then Phase.done notFound else Phase.start⟩ := by
  have hji : j ≠ i := by
    intro h
    rw [h, hi] at hj
    cases hj
  have hstep : stepSys t j c =
      ⟨registryDelete t c.state, c.reqs.set j ⟨aj, Phase.unregistered resp m⟩⟩ := by
    simp [stepSys, hj, stepRequest]
  rw [runSys_cons]
  apply runSys_start_after_removal
  · rw [hstep]
    simp [registryDelete, GoMap.lookup_erase]
  · rw [hstep]
    show (c.reqs.set j ⟨aj, Phase.unregistered resp m⟩)[i]? = _
    rw [List.getElem?_set_ne hji]
    exact hi

theorem lookup_after_removal_notFound_witness :
    (runSys "t1" [0, 1, 1, 0]
        ⟨exState, [⟨none, Phase.spawned ⟨200, Body.data [1, 2, 3]⟩ ⟨"uploads/f1.txt", 100⟩⟩,
          ⟨none, Phase.start⟩]⟩).reqs[1]? = some ⟨none, Phase.done notFound⟩ :=
  lookup_after_removal_notFound "t1"
    ⟨exState, [⟨none, Phase.spawned ⟨200, Body.data [1, 2, 3]⟩ ⟨"uploads/f1.txt", 100⟩⟩,
      ⟨none, Phase.start⟩]⟩ [1, 1, 0] 1 0 none none ⟨200, Body.data [1, 2, 3]⟩
    ⟨"uploads/f1.txt", 100⟩ rfl rfl

end QuickDrop
